import Mathlib

/-!
Shallow embedding of the GiftFlow mock backend (src/main.py).

The program keeps three pieces of in-memory state: a dict of users keyed by
email (`MOCK_USERS`), a dict mapping token strings to emails (`MOCK_TOKENS`),
and a list of events (`MOCK_EVENTS`).  Python dicts are insertion ordered, so
both dicts are embedded as association lists: lookup returns the first entry
with the given key, and assignment (`d[k] = v`) replaces the value of the
first entry with key `k` in place, appending a new entry when the key is
absent.

Machine-level details embedded faithfully:
* Python f-string interpolation of an `int` renders its decimal digits; this
  is `natRepr` below (structurally recursive so the kernel can evaluate it).
* `str.replace(old, new)` replaces every non-overlapping occurrence from the
  left; this is `pyReplace` below (the program only calls it with the
  non-empty pattern `"Bearer "`).
* Python truthiness: `not authorization`, `if not email` and
  `existing_token or ...` treat the empty string as false; `payload.participants
  or []` treats the empty list as false.  Each of these checks is embedded
  explicitly at its call site.
-/

namespace GiftFlow

deriving instance DecidableEq for Except

/-- One record of `MOCK_USERS` (name/email/password/id, all strings). -/
structure User where
  name : String
  email : String
  password : String
  id : String
deriving DecidableEq

/-- An `HTTPException(status_code=..., detail=...)`. -/
structure HTTPError where
  status : Nat
  detail : String
deriving DecidableEq

/-- Request body of `POST /api/auth/signup` (`SignupRequest`). -/
structure SignupRequest where
  name : String
  email : String
  password : String
deriving DecidableEq

/-- Request body of `POST /api/auth/login` (`LoginRequest`). -/
structure LoginRequest where
  email : String
  password : String
deriving DecidableEq

/-- Response model `AuthResponse`. -/
structure AuthResponse where
  token : String
  name : String
  email : String
  userId : String
deriving DecidableEq

/-- The dict returned by the `/api/me` handler. -/
structure MeResponse where
  name : String
  email : String
  userId : String
deriving DecidableEq

/-- The pydantic `Event` model.  Field defaults are the source's defaults. -/
structure Event where
  id : String
  name : String
  date : String
  budget : Option Float := none
  participants : List String := []
  ownerId : String
  status : String := "draft"
  event_type : Option String := some "Secret Santa"
  allow_wishlists : Option Bool := some true
  collect_addresses : Option Bool := some false
  custom_message : Option String := none

/-- The pydantic `EventCreate` model with its declared defaults; a field left
unspecified by the caller takes its default. -/
structure EventCreate where
  name : String
  date : String
  budget : Option Float := none
  participants : List String := []
  event_type : Option String := some "Secret Santa"
  allow_wishlists : Option Bool := some true
  collect_addresses : Option Bool := some false
  custom_message : Option String := none

/-- The whole mutable state of the process: `MOCK_USERS`, `MOCK_TOKENS`,
`MOCK_EVENTS`. -/
structure Store where
  users : List (String × User)
  tokens : List (String × String)
  events : List Event

/-- Python `d.get(k)`: first entry with key `k` (insertion order). -/
def dictGet {β : Type} : List (String × β) → String → Option β
  | [], _ => none
  | (k', v) :: rest, k => if k' = k then some v else dictGet rest k

/-- Python `d[k] = v`: replace the value at the first entry with key `k`,
append when the key is absent. -/
def dictInsert {β : Type} : List (String × β) → String → β → List (String × β)
  | [], k, v => [(k, v)]
  | (k', v') :: rest, k, v =>
    if k' = k then (k, v) :: rest else (k', v') :: dictInsert rest k v

/-- Decimal digit characters, as produced by Python `str(int)`. -/
def digitChar : Nat → Char
  | 0 => '0'
  | 1 => '1'
  | 2 => '2'
  | 3 => '3'
  | 4 => '4'
  | 5 => '5'
  | 6 => '6'
  | 7 => '7'
  | 8 => '8'
  | _ => '9'

/-- Fuel-driven most-significant-first decimal digit list of `n`; any fuel
greater than `n` is enough. -/
def natReprAux : Nat → Nat → List Char
  | 0, _ => []
  | fuel + 1, n =>
    if n < 10 then [digitChar n]
    else natReprAux fuel (n / 10) ++ [digitChar (n % 10)]

/-- Decimal rendering of a natural number, as Python f-string interpolation of
an `int` produces it. -/
def natRepr (n : Nat) : String := ⟨natReprAux (n + 1) n⟩

/-- Replace every non-overlapping occurrence of `pat` in the list, scanning
left to right (the semantics of Python `str.replace` for non-empty `pat`).
Fuel at least the length of the list is enough. -/
def replaceAll (pat rep : List Char) : Nat → List Char → List Char
  | _, [] => []
  | 0, l => l
  | fuel + 1, c :: cs =>
    if pat.isPrefixOf (c :: cs) then
      rep ++ replaceAll pat rep fuel (List.drop pat.length (c :: cs))
    else c :: replaceAll pat rep fuel cs

/-- Python `s.replace(pat, rep)` for a non-empty pattern. -/
def pyReplace (s pat rep : String) : String :=
  ⟨replaceAll pat.data rep.data s.data.length s.data⟩

/-- Helper `get_user_from_token`: token → email → user, 401 on either miss.  Python's
`if not email` also rejects an entry mapping to the empty string. -/
def get_user_from_token (s : Store) (token : String) : Except HTTPError User :=
  match dictGet s.tokens token with
  | none => .error ⟨401, "Invalid token"⟩
  | some email =>
    if email = "" then .error ⟨401, "Invalid token"⟩
    else
      match dictGet s.users email with
      | none => .error ⟨401, "User not found"⟩
      | some user => .ok user

/-- Dependency `current_user`: missing (or, by Python truthiness, empty)
header is rejected; otherwise every occurrence of `"Bearer "` is removed from
the header value and the remainder is resolved as a token. -/
def current_user (s : Store) (authorization : Option String) :
    Except HTTPError User :=
  match authorization with
  | none => .error ⟨401, "Missing Authorization header"⟩
  | some a =>
    if a = "" then .error ⟨401, "Missing Authorization header"⟩
    else get_user_from_token s (pyReplace a "Bearer " "")

/-- Handler of `POST /api/auth/signup`.  Returns the response (or error) together with
the state after the handler ran. -/
def signup (s : Store) (p : SignupRequest) :
    Except HTTPError AuthResponse × Store :=
  if (dictGet s.users p.email).isSome then
    (.error ⟨400, "Email already in use"⟩, s)
  else
    let user_id := "u_" ++ natRepr (s.users.length + 1)
    let token := "mocktoken_" ++ user_id
    (.ok ⟨token, p.name, p.email, user_id⟩,
      { s with
        users := dictInsert s.users p.email ⟨p.name, p.email, p.password, user_id⟩,
        tokens := dictInsert s.tokens token p.email })

/-- Handler of `POST /api/auth/login`.  On success scans `MOCK_TOKENS` in insertion order
for a token mapped to this email; `existing_token or mint` falls back to the
mint also when the found token is the empty string (Python truthiness). -/
def login (s : Store) (p : LoginRequest) :
    Except HTTPError AuthResponse × Store :=
  match dictGet s.users p.email with
  | none => (.error ⟨401, "Invalid email or password"⟩, s)
  | some user =>
    if user.password = p.password then
      let existing_token := (s.tokens.find? (fun q => q.2 == p.email)).map Prod.fst
      let token :=
        match existing_token with
        | some t => if t = "" then "mocktoken_" ++ user.id else t
        | none => "mocktoken_" ++ user.id
      (.ok ⟨token, user.name, user.email, user.id⟩,
        { s with tokens := dictInsert s.tokens token p.email })
    else (.error ⟨401, "Invalid email or password"⟩, s)

/-- Handler body of `GET /api/me`, given the resolved user. -/
def me (u : User) : MeResponse := ⟨u.name, u.email, u.id⟩

/-- Handler body of `GET /api/events`: events whose `ownerId` equals the caller's
id, in insertion order. -/
def list_events (s : Store) (u : User) : List Event :=
  s.events.filter (fun e => e.ownerId == u.id)

/-- Handler body of `POST /api/events`, given the resolved user.  The guards
mirror Python: `payload.participants or []`, `payload.event_type or
"Secret Santa"` (empty string is falsy), and explicit `is not None` checks for
the two flags. -/
def create_event (s : Store) (p : EventCreate) (u : User) : Event × Store :=
  let new_id := "evt_" ++ natRepr (s.events.length + 1)
  let event : Event :=
    { id := new_id
      name := p.name
      date := p.date
      budget := p.budget
      participants := if p.participants.isEmpty then [] else p.participants
      ownerId := u.id
      status := "draft"
      event_type := some (match p.event_type with
        | some t => if t = "" then "Secret Santa" else t
        | none => "Secret Santa")
      allow_wishlists := some (match p.allow_wishlists with
        | some b => b
        | none => true)
      collect_addresses := some (match p.collect_addresses with
        | some b => b
        | none => false)
      custom_message := p.custom_message }
  (event, { s with events := s.events ++ [event] })

/-- Route `GET /api/me`: auth middleware then handler. -/
def me_route (s : Store) (auth : Option String) : Except HTTPError MeResponse :=
  (current_user s auth).map me

/-- Route `GET /api/events`: auth middleware then handler. -/
def list_events_route (s : Store) (auth : Option String) :
    Except HTTPError (List Event) :=
  (current_user s auth).map (list_events s)

/-- Route `POST /api/events`: auth middleware then handler; a failed auth
leaves the store untouched. -/
def create_event_route (s : Store) (auth : Option String) (p : EventCreate) :
    Except HTTPError Event × Store :=
  match current_user s auth with
  | .error e => (.error e, s)
  | .ok u =>
    let r := create_event s p u
    (.ok r.1, r.2)

/-- The seeded demo user record. -/
def demoUser : User :=
  ⟨"Demo User", "demo@giftflow.app", "demo123", "u_demo_1"⟩

/-- The seeded demo event. -/
def seedEvent : Event :=
  { id := "evt_1"
    name := "Holiday Gift Swap"
    event_type := some "Secret Santa"
    date := "2025-12-15"
    budget := some 40
    participants := ["Alice", "Bob", "Charlie"]
    ownerId := "u_demo_1"
    status := "draft"
    allow_wishlists := some true
    collect_addresses := some false
    custom_message := some "Welcome to our annual swap!" }

/-- The module-level initial state: one demo user, no tokens, one seed
event. -/
def initialStore : Store :=
  { users := [("demo@giftflow.app", demoUser)]
    tokens := []
    events := [seedEvent] }

/-- One state transition of the system: a run of one of the three mutating
handlers (failed runs are included; they leave the state unchanged).  The
signup step carries the fact that the pydantic `EmailStr` validator rejected
an empty email before the handler ran; login and event creation accept any
payload. -/
inductive Step : Store → Store → Prop where
  | signup_step (s : Store) (p : SignupRequest) (hp : p.email ≠ "") :
      Step s (signup s p).2
  | login_step (s : Store) (p : LoginRequest) : Step s (login s p).2
  | create_step (s : Store) (auth : Option String) (p : EventCreate) :
      Step s (create_event_route s auth p).2

/-- States reachable from the seeded initial state by handler runs. -/
inductive Reachable : Store → Prop where
  | init : Reachable initialStore
  | next {s s' : Store} : Reachable s → Step s s' → Reachable s'

/-- The structural invariant of reachable stores. -/
structure Inv (s : Store) : Prop where
  users_nonempty : 1 ≤ s.users.length
  emails_nodup : (s.users.map Prod.fst).Nodup
  emails_ne : ∀ q ∈ s.users, q.1 ≠ ""
  email_field : ∀ q ∈ s.users, q.2.email = q.1
  id_shape : ∀ q ∈ s.users, q.2.id = "u_demo_1" ∨
    ∃ k, 2 ≤ k ∧ k ≤ s.users.length ∧ q.2.id = "u_" ++ natRepr k
  ids_nodup : (s.users.map (fun q => q.2.id)).Nodup
  tok_keys_nodup : (s.tokens.map Prod.fst).Nodup
  tok_shape : ∀ q ∈ s.tokens, ∃ r ∈ s.users,
    q.1 = "mocktoken_" ++ r.2.id ∧ q.2 = r.1
  evt_ids : ∀ (i : Nat) (h : i < s.events.length),
    s.events[i].id = "evt_" ++ natRepr (i + 1)

/-- Modelled from the spec: "strips a literal `\"Bearer \"` prefix (if
present) from the header value", leaving the rest of the value unchanged.
Stated for comparison with the code's `pyReplace`-based behaviour. -/
def specStripBearer (a : String) : String :=
  if "Bearer ".data.isPrefixOf a.data then ⟨a.data.drop 7⟩ else a

/-- The token the spec says a successful login returns: the first token
mapped to this email in the token table's iteration order, else the freshly
minted `mocktoken_<userId>`. -/
def specLoginToken (s : Store) (email uid : String) : String :=
  match (s.tokens.find? (fun q => q.2 == email)).map Prod.fst with
  | some t => t
  | none => "mocktoken_" ++ uid

/-- The key/value pairs of the serialized `AuthResponse` body. -/
def AuthResponse.dumpFields (r : AuthResponse) : List (String × String) :=
  [("token", r.token), ("name", r.name), ("email", r.email), ("userId", r.userId)]

/-- The key/value pairs of the `/api/me` response body. -/
def MeResponse.dumpFields (m : MeResponse) : List (String × String) :=
  [("name", m.name), ("email", m.email), ("userId", m.userId)]

/-- The keys of `Event.model_dump()`: exactly the declared model fields. -/
def Event.dumpKeys (_ : Event) : List String :=
  ["id", "name", "date", "budget", "participants", "ownerId", "status",
    "event_type", "allow_wishlists", "collect_addresses", "custom_message"]

/-- Predicate `hasOccur pat l` decides whether `pat` occurs as a contiguous sublist of
`l` (used to state when `pyReplace` has nothing to do). -/
def hasOccur (pat : List Char) : List Char → Bool
  | [] => false
  | c :: cs => pat.isPrefixOf (c :: cs) || hasOccur pat cs

/-- Numeric value of a decimal digit character (0 for anything else); only
used to invert `digitChar`. -/
def charVal : Char → Nat
  | '1' => 1
  | '2' => 2
  | '3' => 3
  | '4' => 4
  | '5' => 5
  | '6' => 6
  | '7' => 7
  | '8' => 8
  | '9' => 9
  | _ => 0

/-- Value of a most-significant-first decimal digit list. -/
def valDigits (l : List Char) : Nat :=
  l.foldl (fun a c => 10 * a + charVal c) 0

/- ------------------------------------------------------------------ -/
/- Lemma kit: association-list dictionaries                            -/
/- ------------------------------------------------------------------ -/

theorem dictGet_insert_self {β : Type} (d : List (String × β)) (k : String) (v : β) :
    dictGet (dictInsert d k v) k = some v := by
  induction d with
  | nil => simp [dictGet, dictInsert]
  | cons q rest ih =>
    by_cases h : q.1 = k
    · simp [dictInsert, dictGet, h]
    · simpa [dictInsert, dictGet, h] using ih

theorem dictGet_insert_ne {β : Type} (d : List (String × β)) (k k' : String) (v : β)
    (h : k' ≠ k) : dictGet (dictInsert d k v) k' = dictGet d k' := by
  have hk : ¬ k = k' := fun h' => h h'.symm
  induction d with
  | nil => simp [dictGet, dictInsert, hk]
  | cons q rest ih =>
    by_cases hq : q.1 = k
    · have hq' : ¬ q.1 = k' := by rw [hq]; exact hk
      simp [dictInsert, dictGet, hq, hk, hq']
    · by_cases hq' : q.1 = k'
      · simp [dictInsert, dictGet, hq, hq', h]
      · simpa [dictInsert, dictGet, hq, hq'] using ih

theorem dictGet_eq_none_iff {β : Type} (d : List (String × β)) (k : String) :
    dictGet d k = none ↔ k ∉ d.map Prod.fst := by
  induction d with
  | nil => simp [dictGet]
  | cons q rest ih =>
    by_cases h : q.1 = k
    · simp [dictGet, h]
    · have h' : ¬ k = q.1 := fun hk => h hk.symm
      simp [dictGet, h, ih, h']

theorem dictGet_mem {β : Type} {d : List (String × β)} {k : String} {v : β}
    (h : dictGet d k = some v) : (k, v) ∈ d := by
  induction d with
  | nil => simp [dictGet] at h
  | cons q rest ih =>
    by_cases hq : q.1 = k
    · simp [dictGet, hq] at h
      have : q = (k, v) := by
        cases q
        simp_all
      exact this ▸ List.mem_cons_self _ _
    · simp [dictGet, hq] at h
      exact List.mem_cons_of_mem _ (ih h)

theorem dictGet_of_mem_nodup {β : Type} {d : List (String × β)} {k : String} {v : β}
    (hn : (d.map Prod.fst).Nodup) (h : (k, v) ∈ d) : dictGet d k = some v := by
  induction d with
  | nil => simp at h
  | cons q rest ih =>
    simp only [List.map_cons, List.nodup_cons] at hn
    rcases List.mem_cons.mp h with h | h
    · subst h
      simp [dictGet]
    · have hne : q.1 ≠ k := by
        intro hk
        exact hn.1 (hk ▸ List.mem_map.mpr ⟨(k, v), h, rfl⟩)
      simpa [dictGet, hne] using ih hn.2 h

theorem dictInsert_of_get_none {β : Type} {d : List (String × β)} {k : String}
    (h : dictGet d k = none) (v : β) : dictInsert d k v = d ++ [(k, v)] := by
  induction d with
  | nil => simp [dictInsert]
  | cons q rest ih =>
    by_cases hq : q.1 = k
    · simp [dictGet, hq] at h
    · simp only [dictGet, if_neg hq] at h
      simp [dictInsert, hq, ih h]

theorem length_dictInsert_of_get_none {β : Type} {d : List (String × β)} {k : String}
    (h : dictGet d k = none) (v : β) :
    (dictInsert d k v).length = d.length + 1 := by
  simp [dictInsert_of_get_none h]

theorem mem_of_mem_dictInsert {β : Type} {d : List (String × β)} {k : String} {v : β}
    {q : String × β} (h : q ∈ dictInsert d k v) : q = (k, v) ∨ q ∈ d := by
  induction d with
  | nil => simpa [dictInsert] using h
  | cons r rest ih =>
    by_cases hr : r.1 = k
    · rcases List.mem_cons.mp (by simpa [dictInsert, hr] using h) with h | h
      · exact Or.inl h
      · exact Or.inr (List.mem_cons_of_mem _ h)
    · rcases List.mem_cons.mp (by simpa [dictInsert, hr] using h) with h | h
      · exact Or.inr (h ▸ List.mem_cons_self _ _)
      · rcases ih h with h | h
        · exact Or.inl h
        · exact Or.inr (List.mem_cons_of_mem _ h)

theorem keys_dictInsert_of_mem {β : Type} {d : List (String × β)} {k : String}
    (h : k ∈ d.map Prod.fst) (v : β) :
    (dictInsert d k v).map Prod.fst = d.map Prod.fst := by
  induction d with
  | nil => simp at h
  | cons q rest ih =>
    by_cases hq : q.1 = k
    · simp [dictInsert, hq]
    · have : k ∈ rest.map Prod.fst := by
        rcases List.mem_map.mp h with ⟨r, hr, hrk⟩
        rcases List.mem_cons.mp hr with h' | h'
        · exact absurd (h' ▸ hrk) hq
        · exact List.mem_map.mpr ⟨r, h', hrk⟩
      simp [dictInsert, hq, ih this]

theorem dictGet_append_of_not_mem {β : Type} {l₁ : List (String × β)} {k : String}
    (h : k ∉ l₁.map Prod.fst) (l₂ : List (String × β)) :
    dictGet (l₁ ++ l₂) k = dictGet l₂ k := by
  induction l₁ with
  | nil => simp
  | cons q rest ih =>
    simp only [List.map_cons, List.mem_cons, not_or] at h
    have hq : ¬ q.1 = k := fun hk => h.1 hk.symm
    simpa [dictGet, hq] using ih h.2

theorem dictInsert_split {β : Type} {l₁ : List (String × β)} {k : String}
    (h : k ∉ l₁.map Prod.fst) (v₀ v : β) (l₂ : List (String × β)) :
    dictInsert (l₁ ++ (k, v₀) :: l₂) k v = l₁ ++ (k, v) :: l₂ := by
  induction l₁ with
  | nil => simp [dictInsert]
  | cons q rest ih =>
    simp only [List.map_cons, List.mem_cons, not_or] at h
    have hq : q.1 ≠ k := fun hk => h.1 hk.symm
    simp [dictInsert, hq, ih h.2]

/- ------------------------------------------------------------------ -/
/- Lemma kit: decimal rendering                                        -/
/- ------------------------------------------------------------------ -/

theorem charVal_digitChar : ∀ d, d < 10 → charVal (digitChar d) = d := by decide

theorem digitChar_ne_d : ∀ d, d < 10 → digitChar d ≠ 'd' := by decide

theorem valDigits_append_singleton (l : List Char) (c : Char) :
    valDigits (l ++ [c]) = 10 * valDigits l + charVal c := by
  simp [valDigits, List.foldl_append]

theorem valDigits_natReprAux : ∀ fuel n, n < fuel → valDigits (natReprAux fuel n) = n := by
  intro fuel
  induction fuel with
  | zero => omega
  | succ fuel ih =>
    intro n h
    by_cases h10 : n < 10
    · simp [natReprAux, h10, valDigits, charVal_digitChar n h10]
    · have hlt : n / 10 < fuel := by
        have : n / 10 < n := Nat.div_lt_self (by omega) (by omega)
        omega
      rw [natReprAux, if_neg h10, valDigits_append_singleton, ih _ hlt,
        charVal_digitChar _ (Nat.mod_lt _ (by omega))]
      omega

theorem natReprAux_digits : ∀ fuel n, ∀ c ∈ natReprAux fuel n,
    ∃ d, d < 10 ∧ c = digitChar d := by
  intro fuel
  induction fuel with
  | zero => intro n c hc; simp [natReprAux] at hc
  | succ fuel ih =>
    intro n c hc
    by_cases h10 : n < 10
    · simp [natReprAux, h10] at hc
      exact ⟨n, h10, hc⟩
    · rw [natReprAux, if_neg h10] at hc
      rcases List.mem_append.mp hc with hc | hc
      · exact ih _ _ hc
      · simp at hc
        exact ⟨n % 10, Nat.mod_lt _ (by omega), hc⟩

theorem natRepr_inj {m n : Nat} (h : natRepr m = natRepr n) : m = n := by
  have hd : natReprAux (m + 1) m = natReprAux (n + 1) n := congrArg String.data h
  have hm := valDigits_natReprAux (m + 1) m (Nat.lt_succ_self m)
  have hn := valDigits_natReprAux (n + 1) n (Nat.lt_succ_self n)
  rw [hd, hn] at hm
  exact hm.symm

theorem natRepr_ne_demo (n : Nat) : natRepr n ≠ "demo_1" := by
  intro h
  have hd : natReprAux (n + 1) n = "demo_1".data := congrArg String.data h
  have hmem : 'd' ∈ natReprAux (n + 1) n := by
    rw [hd]; decide
  rcases natReprAux_digits (n + 1) n 'd' hmem with ⟨d, hd10, hc⟩
  exact digitChar_ne_d d hd10 hc.symm

/- ------------------------------------------------------------------ -/
/- Lemma kit: strings                                                  -/
/- ------------------------------------------------------------------ -/

theorem string_append_cancel_left {a b c : String} (h : a ++ b = a ++ c) : b = c := by
  have hd := congrArg String.data h
  rw [String.data_append, String.data_append] at hd
  exact String.ext (List.append_cancel_left hd)

theorem string_append_ne_empty {a : String} (ha : a.data ≠ []) (b : String) :
    a ++ b ≠ "" := by
  intro h
  have hd := congrArg String.data h
  rw [String.data_append] at hd
  exact ha (List.append_eq_nil.mp hd).1

theorem mocktoken_ne_empty (x : String) : "mocktoken_" ++ x ≠ "" :=
  string_append_ne_empty (by decide) x

/- ------------------------------------------------------------------ -/
/- Lemma kit: replaceAll / hasOccur                                    -/
/- ------------------------------------------------------------------ -/

theorem isPrefixOf_append_self (l₁ l₂ : List Char) :
    l₁.isPrefixOf (l₁ ++ l₂) = true := by
  induction l₁ with
  | nil => simp [List.isPrefixOf]
  | cons c cs ih => simp [List.isPrefixOf, ih]

theorem replaceAll_of_hasOccur_false (pat rep : List Char) :
    ∀ (l : List Char) (fuel : Nat), hasOccur pat l = false → l.length ≤ fuel →
      replaceAll pat rep fuel l = l := by
  intro l
  induction l with
  | nil => intro fuel _ _; cases fuel <;> simp [replaceAll]
  | cons c cs ih =>
    intro fuel h hlen
    cases fuel with
    | zero => simp at hlen
    | succ fuel =>
      simp only [hasOccur, Bool.or_eq_false_iff] at h
      simp only [replaceAll, h.1, Bool.false_eq_true, if_false, List.cons.injEq, true_and]
      exact ih fuel h.2 (by simpa using Nat.le_of_succ_le_succ hlen)

theorem replaceAll_strip {pat t : List Char} (hne : pat ≠ [])
    (h : hasOccur pat t = false) :
    ∀ fuel, (pat ++ t).length ≤ fuel → replaceAll pat [] fuel (pat ++ t) = t := by
  intro fuel hf
  cases pat with
  | nil => exact absurd rfl hne
  | cons p ps =>
    cases fuel with
    | zero => simp at hf
    | succ fuel =>
      have hpre := isPrefixOf_append_self (p :: ps) t
      show replaceAll (p :: ps) [] (fuel + 1) ((p :: ps) ++ t) = t
      rw [show ((p :: ps) ++ t : List Char) = p :: (ps ++ t) from rfl] at hpre ⊢
      rw [replaceAll, if_pos hpre]
      have hdrop : List.drop (p :: ps).length (p :: (ps ++ t)) = t := by
        rw [show (p :: (ps ++ t) : List Char) = (p :: ps) ++ t from rfl]
        exact List.drop_left _ _
      rw [hdrop, List.nil_append]
      apply replaceAll_of_hasOccur_false _ _ _ _ h
      simp at hf
      omega

theorem hasOccur_false_of_not_mem {c₀ : Char} {l : List Char} (pat' : List Char)
    (h : c₀ ∉ l) : hasOccur (c₀ :: pat') l = false := by
  induction l with
  | nil => rfl
  | cons c cs ih =>
    simp only [List.mem_cons, not_or] at h
    have : (c₀ :: pat').isPrefixOf (c :: cs) = false := by
      simp only [List.isPrefixOf, Bool.and_eq_false_iff]
      exact Or.inl (beq_eq_false_iff_ne.mpr h.1)
    simp [hasOccur, this, ih h.2]

/- ------------------------------------------------------------------ -/
/- Lemma kit: find?                                                    -/
/- ------------------------------------------------------------------ -/

theorem find?_split {α : Type} {p : α → Bool} :
    ∀ {l : List α} {a : α}, l.find? p = some a →
      ∃ l₁ l₂, l = l₁ ++ a :: l₂ ∧ ∀ x ∈ l₁, p x = false := by
  intro l
  induction l with
  | nil => intro a h; simp [List.find?] at h
  | cons c cs ih =>
    intro a h
    by_cases hp : p c
    · rw [List.find?_cons_of_pos _ hp] at h
      cases h
      exact ⟨[], cs, rfl, by simp⟩
    · rw [List.find?_cons_of_neg _ (by simpa using hp)] at h
      rcases ih h with ⟨l₁, l₂, hl, hfalse⟩
      refine ⟨c :: l₁, l₂, by rw [hl]; rfl, ?_⟩
      intro x hx
      rcases List.mem_cons.mp hx with hx | hx
      · subst hx; simpa using hp
      · exact hfalse x hx

theorem find?_append_none {α : Type} {p : α → Bool} {l₁ : List α}
    (h : l₁.find? p = none) (l₂ : List α) :
    (l₁ ++ l₂).find? p = l₂.find? p := by
  rw [List.find?_append, h, Option.none_or]

theorem nodup_append_singleton {α : Type} {l : List α} {a : α}
    (h : l.Nodup) (ha : a ∉ l) : (l ++ [a]).Nodup := by
  rw [List.nodup_append]
  refine ⟨h, List.nodup_singleton a, ?_⟩
  intro x hx hx'
  simp at hx'
  subst hx'
  exact ha hx

/- ------------------------------------------------------------------ -/
/- Invariant machinery                                                 -/
/- ------------------------------------------------------------------ -/

theorem id_fresh_of_inv {s : Store} (inv : Inv s) :
    ∀ q ∈ s.users, q.2.id ≠ "u_" ++ natRepr (s.users.length + 1) := by
  intro q hq heq
  rcases inv.id_shape q hq with h | ⟨k, hk2, hklen, hkid⟩
  · rw [h] at heq
    have hsplit : ("u_" : String) ++ "demo_1" = "u_" ++ natRepr (s.users.length + 1) := by
      rw [← heq]; decide
    exact natRepr_ne_demo _ (string_append_cancel_left hsplit).symm
  · rw [hkid] at heq
    have := natRepr_inj (string_append_cancel_left heq)
    omega

theorem tok_fresh_of_inv {s : Store} (inv : Inv s) :
    dictGet s.tokens ("mocktoken_" ++ ("u_" ++ natRepr (s.users.length + 1))) = none := by
  rw [dictGet_eq_none_iff]
  intro hmem
  rcases List.mem_map.mp hmem with ⟨q, hq, hfst⟩
  rcases inv.tok_shape q hq with ⟨r, hr, hq1, _⟩
  rw [hq1] at hfst
  exact id_fresh_of_inv inv r hr (string_append_cancel_left hfst)

theorem tok_key_ne_empty_of_inv {s : Store} (inv : Inv s) :
    ∀ q ∈ s.tokens, q.1 ≠ "" := by
  intro q hq
  rcases inv.tok_shape q hq with ⟨r, _, hq1, _⟩
  rw [hq1]
  exact mocktoken_ne_empty _

theorem login_tok_fresh_of_inv {s : Store} (inv : Inv s) {email : String} {user : User}
    (hu : dictGet s.users email = some user)
    (hfind : s.tokens.find? (fun q => q.2 == email) = none) :
    dictGet s.tokens ("mocktoken_" ++ user.id) = none := by
  rw [dictGet_eq_none_iff]
  intro hmem
  rcases List.mem_map.mp hmem with ⟨q, hq, hfst⟩
  rcases inv.tok_shape q hq with ⟨r, hr, hq1, hq2⟩
  rw [hq1] at hfst
  have hid : r.2.id = user.id := string_append_cancel_left hfst
  have hru : r = (email, user) :=
    List.inj_on_of_nodup_map inv.ids_nodup hr (dictGet_mem hu) hid
  have hqe : q.2 = email := by rw [hq2, hru]
  exact (List.find?_eq_none.mp hfind q hq) (beq_iff_eq.mpr hqe)

/-- Unfolding of `signup` when the email is already taken. -/
theorem signup_conflict_eq {s : Store} {p : SignupRequest} {u : User}
    (hget : dictGet s.users p.email = some u) :
    signup s p = (.error ⟨400, "Email already in use"⟩, s) := by
  simp [signup, hget]

/-- Unfolding of `signup` on a fresh email. -/
theorem signup_ok_eq {s : Store} {p : SignupRequest}
    (hget : dictGet s.users p.email = none) :
    signup s p =
      (.ok ⟨"mocktoken_" ++ ("u_" ++ natRepr (s.users.length + 1)), p.name, p.email,
          "u_" ++ natRepr (s.users.length + 1)⟩,
        { s with
          users := dictInsert s.users p.email
            ⟨p.name, p.email, p.password, "u_" ++ natRepr (s.users.length + 1)⟩,
          tokens := dictInsert s.tokens
            ("mocktoken_" ++ ("u_" ++ natRepr (s.users.length + 1))) p.email }) := by
  simp [signup, hget]

/-- Unfolding of `login` on an unknown email. -/
theorem login_nouser_eq {s : Store} {p : LoginRequest}
    (hu : dictGet s.users p.email = none) :
    login s p = (.error ⟨401, "Invalid email or password"⟩, s) := by
  simp [login, hu]

/-- Unfolding of `login` on a wrong password. -/
theorem login_badpw_eq {s : Store} {p : LoginRequest} {user : User}
    (hu : dictGet s.users p.email = some user)
    (hpw : ¬ user.password = p.password) :
    login s p = (.error ⟨401, "Invalid email or password"⟩, s) := by
  simp [login, hu, hpw]

/-- Unfolding of `login` when an existing (non-empty) token is found. -/
theorem login_found_eq {s : Store} {p : LoginRequest} {user : User} {tq : String × String}
    (hu : dictGet s.users p.email = some user)
    (hpw : user.password = p.password)
    (hfind : s.tokens.find? (fun q => q.2 == p.email) = some tq)
    (hne : ¬ tq.1 = "") :
    login s p = (.ok ⟨tq.1, user.name, user.email, user.id⟩,
      { s with tokens := dictInsert s.tokens tq.1 p.email }) := by
  simp [login, hu, hpw, hfind, hne]

/-- Unfolding of `login` when no token maps to the email yet. -/
theorem login_mint_eq {s : Store} {p : LoginRequest} {user : User}
    (hu : dictGet s.users p.email = some user)
    (hpw : user.password = p.password)
    (hfind : s.tokens.find? (fun q => q.2 == p.email) = none) :
    login s p = (.ok ⟨"mocktoken_" ++ user.id, user.name, user.email, user.id⟩,
      { s with tokens := dictInsert s.tokens ("mocktoken_" ++ user.id) p.email }) := by
  simp [login, hu, hpw, hfind]

/-- Unfolding of `create_event_route` when authentication fails. -/
theorem create_route_err_eq {s : Store} {auth : Option String} {p : EventCreate}
    {e : HTTPError} (hcu : current_user s auth = .error e) :
    create_event_route s auth p = (.error e, s) := by
  simp [create_event_route, hcu]

/-- Unfolding of `create_event_route` when authentication succeeds. -/
theorem create_route_ok_eq {s : Store} {auth : Option String} {p : EventCreate}
    {u : User} (hcu : current_user s auth = .ok u) :
    create_event_route s auth p =
      (.ok (create_event s p u).1, { s with events := s.events ++ [(create_event s p u).1] }) := by
  simp [create_event_route, hcu, create_event]

theorem inv_signup {s : Store} (inv : Inv s) (p : SignupRequest) (hp : p.email ≠ "") :
    Inv (signup s p).2 := by
  cases hget : dictGet s.users p.email with
  | some u => rw [signup_conflict_eq hget]; exact inv
  | none =>
    have htok := tok_fresh_of_inv inv
    rw [signup_ok_eq hget, dictInsert_of_get_none hget, dictInsert_of_get_none htok]
    have hkey : p.email ∉ s.users.map Prod.fst := (dictGet_eq_none_iff _ _).mp hget
    have htkey : ("mocktoken_" ++ ("u_" ++ natRepr (s.users.length + 1)))
        ∉ s.tokens.map Prod.fst := (dictGet_eq_none_iff _ _).mp htok
    refine ⟨?_, ?_, ?_, ?_, ?_, ?_, ?_, ?_, ?_⟩
    · simp
    · simp only [List.map_append, List.map_cons, List.map_nil]
      exact nodup_append_singleton inv.emails_nodup hkey
    · intro q hq
      rcases List.mem_append.mp hq with hq | hq
      · exact inv.emails_ne q hq
      · simp at hq
        subst hq
        exact hp
    · intro q hq
      rcases List.mem_append.mp hq with hq | hq
      · exact inv.email_field q hq
      · simp at hq
        subst hq
        rfl
    · intro q hq
      rcases List.mem_append.mp hq with hq | hq
      · rcases inv.id_shape q hq with h | ⟨k, hk2, hklen, hkid⟩
        · exact Or.inl h
        · exact Or.inr ⟨k, hk2, by simp; omega, hkid⟩
      · simp at hq
        subst hq
        refine Or.inr ⟨s.users.length + 1, ?_, by simp, rfl⟩
        have := inv.users_nonempty
        omega
    · simp only [List.map_append, List.map_cons, List.map_nil]
      refine nodup_append_singleton inv.ids_nodup ?_
      intro hmem
      rcases List.mem_map.mp hmem with ⟨q, hq, hid⟩
      exact id_fresh_of_inv inv q hq hid
    · simp only [List.map_append, List.map_cons, List.map_nil]
      exact nodup_append_singleton inv.tok_keys_nodup htkey
    · intro q hq
      rcases List.mem_append.mp hq with hq | hq
      · rcases inv.tok_shape q hq with ⟨r, hr, h1, h2⟩
        exact ⟨r, List.mem_append_left _ hr, h1, h2⟩
      · simp at hq
        subst hq
        exact ⟨(p.email, ⟨p.name, p.email, p.password, "u_" ++ natRepr (s.users.length + 1)⟩),
          List.mem_append_right _ (by simp), rfl, rfl⟩
    · exact inv.evt_ids

theorem inv_login {s : Store} (inv : Inv s) (p : LoginRequest) :
    Inv (login s p).2 := by
  cases hu : dictGet s.users p.email with
  | none => rw [login_nouser_eq hu]; exact inv
  | some user =>
    by_cases hpw : user.password = p.password
    · cases hfind : s.tokens.find? (fun q => q.2 == p.email) with
      | some tq =>
        have htq : tq ∈ s.tokens := List.mem_of_find?_eq_some hfind
        have hne : ¬ tq.1 = "" := tok_key_ne_empty_of_inv inv tq htq
        rw [login_found_eq hu hpw hfind hne]
        have hkeys := keys_dictInsert_of_mem
          (List.mem_map.mpr ⟨tq, htq, rfl⟩) p.email
        have hqe : tq.2 = p.email := by
          have := List.find?_some hfind
          simpa using this
        refine ⟨inv.users_nonempty, inv.emails_nodup, inv.emails_ne, inv.email_field,
          inv.id_shape, inv.ids_nodup, ?_, ?_, inv.evt_ids⟩
        · show (List.map Prod.fst (dictInsert s.tokens tq.1 p.email)).Nodup
          rw [hkeys]
          exact inv.tok_keys_nodup
        · intro q hq
          rcases mem_of_mem_dictInsert hq with hq | hq
          · rcases inv.tok_shape tq htq with ⟨r, hr, h1, h2⟩
            subst hq
            rw [hqe] at h2
            exact ⟨r, hr, h1, h2⟩
          · exact inv.tok_shape q hq
      | none =>
        have hfresh := login_tok_fresh_of_inv inv hu hfind
        rw [login_mint_eq hu hpw hfind, dictInsert_of_get_none hfresh]
        have htkey : ("mocktoken_" ++ user.id) ∉ s.tokens.map Prod.fst :=
          (dictGet_eq_none_iff _ _).mp hfresh
        refine ⟨inv.users_nonempty, inv.emails_nodup, inv.emails_ne, inv.email_field,
          inv.id_shape, inv.ids_nodup, ?_, ?_, inv.evt_ids⟩
        · simp only [List.map_append, List.map_cons, List.map_nil]
          exact nodup_append_singleton inv.tok_keys_nodup htkey
        · intro q hq
          rcases List.mem_append.mp hq with hq | hq
          · exact inv.tok_shape q hq
          · simp at hq
            subst hq
            exact ⟨(p.email, user), dictGet_mem hu, rfl, rfl⟩
    · rw [login_badpw_eq hu hpw]; exact inv

theorem inv_create {s : Store} (inv : Inv s) (auth : Option String) (p : EventCreate) :
    Inv (create_event_route s auth p).2 := by
  cases hcu : current_user s auth with
  | error e => rw [create_route_err_eq hcu]; exact inv
  | ok u =>
    rw [create_route_ok_eq hcu]
    refine ⟨inv.users_nonempty, inv.emails_nodup, inv.emails_ne, inv.email_field,
      inv.id_shape, inv.ids_nodup, inv.tok_keys_nodup, inv.tok_shape, ?_⟩
    intro i h
    show (s.events ++ [(create_event s p u).1])[i].id = "evt_" ++ natRepr (i + 1)
    by_cases hi : i < s.events.length
    · rw [List.getElem_append_left hi]
      exact inv.evt_ids i hi
    · have hlen : i = s.events.length := by
        simp at h
        omega
      rw [List.getElem_concat_length _ _ _ hlen]
      subst hlen
      rfl

theorem inv_step {s s' : Store} (inv : Inv s) (st : Step s s') : Inv s' := by
  cases st with
  | signup_step p hp => exact inv_signup inv p hp
  | login_step p => exact inv_login inv p
  | create_step auth p => exact inv_create inv auth p

theorem inv_init : Inv initialStore := by
  refine ⟨?_, ?_, ?_, ?_, ?_, ?_, ?_, ?_, ?_⟩
  · decide
  · decide
  · intro q hq
    simp [initialStore] at hq
    subst hq
    decide
  · intro q hq
    simp [initialStore] at hq
    subst hq
    decide
  · intro q hq
    simp [initialStore] at hq
    subst hq
    exact Or.inl rfl
  · decide
  · decide
  · intro q hq
    simp [initialStore] at hq
  · intro i h
    have hi : i = 0 := by
      simp [initialStore] at h
      exact h
    subst hi
    show seedEvent.id = "evt_" ++ natRepr (0 + 1)
    decide

theorem reachable_inv {s : Store} (h : Reachable s) : Inv s := by
  induction h with
  | init => exact inv_init
  | next _ st ih => exact inv_step ih st

theorem events_ids_nodup_of_inv {s : Store} (inv : Inv s) :
    (s.events.map Event.id).Nodup := by
  rw [List.nodup_iff_injective_getElem]
  intro i j heq
  dsimp only at heq
  have hi : (i : Nat) < s.events.length := by simpa using i.2
  have hj : (j : Nat) < s.events.length := by simpa using j.2
  rw [List.getElem_map, List.getElem_map] at heq
  rw [inv.evt_ids i hi, inv.evt_ids j hj] at heq
  have := natRepr_inj (string_append_cancel_left heq)
  exact Fin.ext (by omega)

/-- Signup never touches the event list. -/
theorem signup_events_eq (s : Store) (p : SignupRequest) :
    (signup s p).2.events = s.events := by
  cases hu : dictGet s.users p.email with
  | some u => rw [signup_conflict_eq hu]
  | none => rw [signup_ok_eq hu]

/-- Login never touches the event list nor the user table. -/
theorem login_events_users_eq (s : Store) (p : LoginRequest) :
    (login s p).2.events = s.events ∧ (login s p).2.users = s.users := by
  cases hu : dictGet s.users p.email with
  | none => rw [login_nouser_eq hu]; exact ⟨rfl, rfl⟩
  | some user =>
    by_cases hpw : user.password = p.password
    · cases hfind : s.tokens.find? (fun q => q.2 == p.email) with
      | some tq =>
        by_cases hne : tq.1 = ""
        · simp [login, hu, hpw, hfind, hne]
        · rw [login_found_eq hu hpw hfind hne]; exact ⟨rfl, rfl⟩
      | none => rw [login_mint_eq hu hpw hfind]; exact ⟨rfl, rfl⟩
    · rw [login_badpw_eq hu hpw]; exact ⟨rfl, rfl⟩

/-- A mapping present in the token table survives any handler step: tokens are
never deleted, and re-assignment only ever rewrites the same email. -/
theorem tok_stable_step {s s' : Store} (inv : Inv s) (st : Step s s') :
    ∀ t e, dictGet s.tokens t = some e → dictGet s'.tokens t = some e := by
  intro t e hget
  cases st with
  | signup_step p hp =>
    cases hu : dictGet s.users p.email with
    | some u => rw [signup_conflict_eq hu]; exact hget
    | none =>
      rw [signup_ok_eq hu]
      show dictGet (dictInsert s.tokens
        ("mocktoken_" ++ ("u_" ++ natRepr (s.users.length + 1))) p.email) t = some e
      have hne : t ≠ "mocktoken_" ++ ("u_" ++ natRepr (s.users.length + 1)) := by
        intro h
        rw [h, tok_fresh_of_inv inv] at hget
        exact Option.noConfusion hget
      rw [dictGet_insert_ne _ _ _ _ hne]
      exact hget
  | login_step p =>
    cases hu : dictGet s.users p.email with
    | none => rw [login_nouser_eq hu]; exact hget
    | some user =>
      by_cases hpw : user.password = p.password
      · cases hfind : s.tokens.find? (fun q => q.2 == p.email) with
        | some tq =>
          have htq : tq ∈ s.tokens := List.mem_of_find?_eq_some hfind
          have hne : ¬ tq.1 = "" := tok_key_ne_empty_of_inv inv tq htq
          have hqe : tq.2 = p.email := by simpa using List.find?_some hfind
          rw [login_found_eq hu hpw hfind hne]
          show dictGet (dictInsert s.tokens tq.1 p.email) t = some e
          by_cases ht : t = tq.1
          · have htpair : (tq.1, tq.2) ∈ s.tokens := by
              have heta : ((tq.1, tq.2) : String × String) = tq := rfl
              rw [heta]
              exact htq
            have hgettq : dictGet s.tokens tq.1 = some tq.2 :=
              dictGet_of_mem_nodup inv.tok_keys_nodup htpair
            rw [ht] at hget
            have he : e = p.email := by
              have := hget.symm.trans hgettq
              injection this with h'
              rw [h', hqe]
            rw [ht, dictGet_insert_self]
            exact congrArg some he.symm
          · rw [dictGet_insert_ne _ _ _ _ ht]
            exact hget
        | none =>
          have hfresh := login_tok_fresh_of_inv inv hu hfind
          rw [login_mint_eq hu hpw hfind]
          show dictGet (dictInsert s.tokens ("mocktoken_" ++ user.id) p.email) t = some e
          have hne : t ≠ "mocktoken_" ++ user.id := by
            intro h
            rw [h, hfresh] at hget
            exact Option.noConfusion hget
          rw [dictGet_insert_ne _ _ _ _ hne]
          exact hget
      · rw [login_badpw_eq hu hpw]; exact hget
  | create_step auth p =>
    cases hcu : current_user s auth with
    | error err => rw [create_route_err_eq hcu]; exact hget
    | ok u => rw [create_route_ok_eq hcu]; exact hget

/-- The auth middleware applied to a well-formed bearer header: if the token
itself contains no occurrence of `"Bearer "`, the resolved token is exactly
the part after the prefix. -/
theorem current_user_bearer (s : Store) (t : String)
    (ht : hasOccur "Bearer ".data t.data = false) :
    current_user s (some ("Bearer " ++ t)) = get_user_from_token s t := by
  have hne : ("Bearer " ++ t : String) ≠ "" := string_append_ne_empty (by decide) t
  have hrepl : pyReplace ("Bearer " ++ t) "Bearer " "" = t := by
    have hdata : ("Bearer " ++ t : String).data = "Bearer ".data ++ t.data :=
      String.data_append _ _
    show (⟨replaceAll "Bearer ".data "".data
      ("Bearer " ++ t : String).data.length ("Bearer " ++ t : String).data⟩ : String) = t
    rw [hdata]
    rw [replaceAll_strip (by decide) ht _ (le_refl _)]
  simp only [current_user, hne, if_neg, hrepl]
  congr

/-- Tokens of the shape the system mints never contain the letter B, hence no
occurrence of `"Bearer "`. -/
theorem token_no_bearer_of_inv {s : Store} (inv : Inv s) {r : String × User}
    (hr : r ∈ s.users) :
    hasOccur "Bearer ".data ("mocktoken_" ++ r.2.id).data = false := by
  have hchars : ("Bearer " : String).data = 'B' :: "earer ".data := by decide
  rw [hchars]
  apply hasOccur_false_of_not_mem
  rw [String.data_append]
  intro hmem
  rcases List.mem_append.mp hmem with hmem | hmem
  · revert hmem; decide
  · rcases inv.id_shape r hr with h | ⟨k, _, _, h⟩
    · rw [h] at hmem
      revert hmem; decide
    · rw [h, String.data_append] at hmem
      rcases List.mem_append.mp hmem with hmem | hmem
      · revert hmem; decide
      · rcases natReprAux_digits _ _ _ hmem with ⟨d, hd10, hc⟩
        have : ∀ d, d < 10 → digitChar d ≠ 'B' := by decide
        exact this d hd10 hc.symm

/-- The response of a successful login whose token scan finds `(tk, email)`
first. -/
theorem login_first_token {s₂ : Store} {p : LoginRequest} {user : User} {tk : String}
    (hu : dictGet s₂.users p.email = some user)
    (hpw : user.password = p.password)
    (hfind : s₂.tokens.find? (fun q => q.2 == p.email) = some (tk, p.email))
    (hne : ¬ tk = "") :
    (login s₂ p).1 = .ok ⟨tk, user.name, user.email, user.id⟩ := by
  rw [login_found_eq hu hpw hfind hne]

/- ------------------------------------------------------------------ -/
/- Claims                                                              -/
/- ------------------------------------------------------------------ -/

/-- Claim C1: every created event has status `"draft"` and owner equal to the
authenticated caller's id (the request model carries no such fields for the
caller to override), and a request leaving the optional fields unspecified
(that is, at the model's declared defaults) yields empty participants,
event_type `"Secret Santa"`, allow_wishlists true and collect_addresses
false. -/
theorem create_event_fixed_and_default_fields (s : Store) (u : User) (p : EventCreate) :
    ((create_event s p u).1.status = "draft" ∧
      (create_event s p u).1.ownerId = u.id ∧
      (create_event s p u).2.events = s.events ++ [(create_event s p u).1]) ∧
    (∀ name date : String,
      (create_event s { name := name, date := date } u).1.participants = [] ∧
      (create_event s { name := name, date := date } u).1.event_type = some "Secret Santa" ∧
      (create_event s { name := name, date := date } u).1.allow_wishlists = some true ∧
      (create_event s { name := name, date := date } u).1.collect_addresses = some false) := by
  refine ⟨⟨rfl, rfl, rfl⟩, ?_⟩
  intro name date
  refine ⟨rfl, ?_, rfl, rfl⟩
  show some (if ("Secret Santa" : String) = "" then "Secret Santa" else "Secret Santa") =
    some "Secret Santa"
  simp

/-- Claim C2: listing returns exactly the stored events owned by the caller,
in insertion order (it is a sublist of the store), and never an event owned
by a user with a different identifier. -/
theorem list_events_owner_scoped (s : Store) (u : User) :
    List.Sublist (list_events s u) s.events ∧
    (∀ e : Event, e ∈ list_events s u ↔ e ∈ s.events ∧ e.ownerId = u.id) ∧
    (∀ (v : User) (e : Event), v.id ≠ u.id → e ∈ list_events s u →
      e.ownerId ≠ v.id) := by
  have hmem : ∀ e : Event, e ∈ list_events s u ↔ e ∈ s.events ∧ e.ownerId = u.id := by
    intro e
    simp [list_events, List.mem_filter]
  refine ⟨List.filter_sublist _, hmem, ?_⟩
  intro v e hv he heq
  exact hv (heq ▸ ((hmem e).mp he).2)

/-- Witness for C2 at a concrete store: the demo user's listing contains the
seed event, and its owner is not the id of a different user. -/
theorem list_events_owner_scoped_witness :
    seedEvent ∈ list_events initialStore demoUser ∧
    seedEvent.ownerId ≠ ("u_2" : String) := by
  have h := list_events_owner_scoped initialStore demoUser
  have hmem : seedEvent ∈ list_events initialStore demoUser :=
    (h.2.1 seedEvent).mpr ⟨List.mem_singleton_self _, rfl⟩
  exact ⟨hmem, h.2.2 ⟨"X", "x@x.com", "pw", "u_2"⟩ seedEvent (by decide) hmem⟩

/-- Claim C3: in any reachable store, signup with a taken email fails with
400 Conflict; otherwise it returns `u_<count+1>` and `mocktoken_<userId>`,
appends the full record (plaintext password included), records the
token-to-email mapping, and grows both tables by exactly one entry. -/
theorem signup_spec (s : Store) (p : SignupRequest) (hs : Reachable s) :
    (∀ u : User, dictGet s.users p.email = some u →
      signup s p = (.error ⟨400, "Email already in use"⟩, s)) ∧
    (dictGet s.users p.email = none →
      (signup s p).1 = .ok ⟨"mocktoken_" ++ ("u_" ++ natRepr (s.users.length + 1)),
        p.name, p.email, "u_" ++ natRepr (s.users.length + 1)⟩ ∧
      (signup s p).2.users = s.users ++
        [(p.email, ⟨p.name, p.email, p.password, "u_" ++ natRepr (s.users.length + 1)⟩)] ∧
      dictGet (signup s p).2.tokens
        ("mocktoken_" ++ ("u_" ++ natRepr (s.users.length + 1))) = some p.email ∧
      (signup s p).2.users.length = s.users.length + 1 ∧
      (signup s p).2.tokens.length = s.tokens.length + 1 ∧
      (signup s p).2.events = s.events) := by
  have inv := reachable_inv hs
  constructor
  · intro u hu
    exact signup_conflict_eq hu
  · intro hget
    have htok := tok_fresh_of_inv inv
    rw [signup_ok_eq hget]
    refine ⟨rfl, ?_, ?_, ?_, ?_, rfl⟩
    · exact dictInsert_of_get_none hget _
    · exact dictGet_insert_self _ _ _
    · exact length_dictInsert_of_get_none hget _
    · exact length_dictInsert_of_get_none htok _

/-- Witness for C3: a concrete signup on the seeded store mints `u_2` and
`mocktoken_u_2` and grows the user table to two entries. -/
theorem signup_spec_witness :
    (signup initialStore ⟨"Alice", "alice@x.com", "pw1"⟩).1 =
      .ok ⟨"mocktoken_u_2", "Alice", "alice@x.com", "u_2"⟩ ∧
    (signup initialStore ⟨"Alice", "alice@x.com", "pw1"⟩).2.users.length = 2 ∧
    (signup initialStore ⟨"Alice", "alice@x.com", "pw1"⟩).2.tokens.length = 1 := by
  have h := (signup_spec initialStore ⟨"Alice", "alice@x.com", "pw1"⟩ Reachable.init).2
    (by decide)
  refine ⟨?_, h.2.2.2.1, h.2.2.2.2.1⟩
  rw [h.1]
  decide

/-- Claim C4: in any reachable store, a successful login returns the first
token mapped to the email in the token table's iteration order (freshly
minting `mocktoken_<userId>` when none exists), rewrites the token-to-email
mapping before returning, and an immediately repeated login returns the very
same response. -/
theorem login_token_reuse (s : Store) (p : LoginRequest) (hs : Reachable s)
    (user : User) (hu : dictGet s.users p.email = some user)
    (hpw : user.password = p.password) :
    (login s p).1 =
      .ok ⟨specLoginToken s p.email user.id, user.name, user.email, user.id⟩ ∧
    dictGet (login s p).2.tokens (specLoginToken s p.email user.id) = some p.email ∧
    (login (login s p).2 p).1 = (login s p).1 := by
  have inv := reachable_inv hs
  cases hfind : s.tokens.find? (fun q => q.2 == p.email) with
  | some tq =>
    have htq : tq ∈ s.tokens := List.mem_of_find?_eq_some hfind
    have hne : ¬ tq.1 = "" := tok_key_ne_empty_of_inv inv tq htq
    have hspec : specLoginToken s p.email user.id = tq.1 := by
      simp [specLoginToken, hfind]
    rw [login_found_eq hu hpw hfind hne, hspec]
    obtain ⟨l₁, l₂, hsplit, hfalse⟩ := find?_split hfind
    have hkeys : tq.1 ∉ l₁.map Prod.fst := by
      have hnd := inv.tok_keys_nodup
      rw [hsplit, List.map_append, List.map_cons, List.nodup_middle] at hnd
      exact fun hm => (List.nodup_cons.mp hnd).1 (List.mem_append_left _ hm)
    have hins : dictInsert s.tokens tq.1 p.email = l₁ ++ (tq.1, p.email) :: l₂ := by
      rw [hsplit]
      exact dictInsert_split hkeys tq.2 p.email l₂
    have hfind' : (dictInsert s.tokens tq.1 p.email).find? (fun q => q.2 == p.email) =
        some (tq.1, p.email) := by
      rw [hins, find?_append_none (List.find?_eq_none.mpr
        (fun x hx => by rw [hfalse x hx]; simp))]
      exact List.find?_cons_of_pos _ (by simp)
    refine ⟨rfl, dictGet_insert_self _ _ _, ?_⟩
    exact login_first_token hu hpw hfind' hne
  | none =>
    have hfresh := login_tok_fresh_of_inv inv hu hfind
    have hspec : specLoginToken s p.email user.id = "mocktoken_" ++ user.id := by
      simp [specLoginToken, hfind]
    rw [login_mint_eq hu hpw hfind, hspec]
    have hins : dictInsert s.tokens ("mocktoken_" ++ user.id) p.email =
        s.tokens ++ [("mocktoken_" ++ user.id, p.email)] :=
      dictInsert_of_get_none hfresh _
    have hfind' : (dictInsert s.tokens ("mocktoken_" ++ user.id) p.email).find?
        (fun q => q.2 == p.email) = some ("mocktoken_" ++ user.id, p.email) := by
      rw [hins, find?_append_none hfind]
      exact List.find?_cons_of_pos _ (by simp)
    refine ⟨rfl, dictGet_insert_self _ _ _, ?_⟩
    exact login_first_token hu hpw hfind' (mocktoken_ne_empty user.id)

/-- Witness for C4: on the seeded store the demo user's first login mints
`mocktoken_u_demo_1`, and logging in again returns the identical response. -/
theorem login_token_reuse_witness :
    (login initialStore ⟨"demo@giftflow.app", "demo123"⟩).1 =
      .ok ⟨"mocktoken_u_demo_1", "Demo User", "demo@giftflow.app", "u_demo_1"⟩ ∧
    (login (login initialStore ⟨"demo@giftflow.app", "demo123"⟩).2
        ⟨"demo@giftflow.app", "demo123"⟩).1 =
      (login initialStore ⟨"demo@giftflow.app", "demo123"⟩).1 := by
  have h := login_token_reuse initialStore ⟨"demo@giftflow.app", "demo123"⟩
    Reachable.init demoUser (by decide) rfl
  refine ⟨?_, h.2.2⟩
  rw [h.1]
  decide

/-- Claim C5: login fails with 401 exactly when the email is unknown or the
stored password differs from the supplied one under plain string equality,
and a failed login leaves the store unchanged. -/
theorem login_failure_iff (s : Store) (p : LoginRequest) :
    ((login s p).1 = .error ⟨401, "Invalid email or password"⟩ ↔
      dictGet s.users p.email = none ∨
        ∃ u : User, dictGet s.users p.email = some u ∧ u.password ≠ p.password) ∧
    (∀ e : HTTPError, (login s p).1 = .error e → (login s p).2 = s) := by
  cases hu : dictGet s.users p.email with
  | none =>
    rw [login_nouser_eq hu]
    exact ⟨⟨fun _ => Or.inl rfl, fun _ => rfl⟩, fun _ _ => rfl⟩
  | some user =>
    by_cases hpw : user.password = p.password
    · constructor
      · constructor
        · intro h
          exact absurd h (by simp [login, hu, hpw])
        · intro h
          exfalso
          rcases h with h | ⟨u, huu, hup⟩
          · exact Option.noConfusion h
          · injection huu with huu
            exact hup (huu ▸ hpw)
      · intro e he
        exact absurd he (by simp [login, hu, hpw])
    · rw [login_badpw_eq hu hpw]
      exact ⟨⟨fun _ => Or.inr ⟨user, rfl, hpw⟩, fun _ => rfl⟩, fun _ _ => rfl⟩

/-- Witness for C5: a wrong password against the seeded demo user yields the
401 response and leaves the store untouched. -/
theorem login_failure_iff_witness :
    (login initialStore ⟨"demo@giftflow.app", "wrong"⟩).1 =
      .error ⟨401, "Invalid email or password"⟩ ∧
    (login initialStore ⟨"demo@giftflow.app", "wrong"⟩).2 = initialStore := by
  have h := login_failure_iff initialStore ⟨"demo@giftflow.app", "wrong"⟩
  have h1 := h.1.mpr (Or.inr ⟨demoUser, by decide, by decide⟩)
  exact ⟨h1, h.2 _ h1⟩

/-- Counterexample to C6 as stated: the middleware does not merely strip one
leading `"Bearer "` prefix leaving the rest unchanged — it removes every
occurrence.  In the store reached by the demo user's login, the header value
`"Bearer Bearer mocktoken_u_demo_1"` authenticates as the demo user, whereas
resolving the prefix-stripped remainder (`"Bearer mocktoken_u_demo_1"`, which
is what the claim prescribes) is rejected as an invalid token. -/
theorem current_user_strip_once_cex :
    current_user (login initialStore ⟨"demo@giftflow.app", "demo123"⟩).2
        (some "Bearer Bearer mocktoken_u_demo_1") = .ok demoUser ∧
    specStripBearer "Bearer Bearer mocktoken_u_demo_1" = "Bearer mocktoken_u_demo_1" ∧
    get_user_from_token (login initialStore ⟨"demo@giftflow.app", "demo123"⟩).2
        "Bearer mocktoken_u_demo_1" = .error ⟨401, "Invalid token"⟩ ∧
    current_user (login initialStore ⟨"demo@giftflow.app", "demo123"⟩).2
        (some "Bearer Bearer mocktoken_u_demo_1") ≠
      get_user_from_token (login initialStore ⟨"demo@giftflow.app", "demo123"⟩).2
        (specStripBearer "Bearer Bearer mocktoken_u_demo_1") := by
  refine ⟨?_, ?_, ?_, ?_⟩ <;> decide

/-- Claim C6 (amended): a missing header — or, by Python truthiness, an empty
one — is rejected with 401 before any handler logic; otherwise the middleware
removes every occurrence of the literal `"Bearer "` from the header value
(not only a leading prefix) and resolves the remainder as the token.  In
particular a header `"Bearer " ++ t` where `t` contains no further occurrence
of `"Bearer "` resolves exactly the token `t`. -/
theorem current_user_spec (s : Store) :
    current_user s none = .error ⟨401, "Missing Authorization header"⟩ ∧
    current_user s (some "") = .error ⟨401, "Missing Authorization header"⟩ ∧
    (∀ a : String, a ≠ "" →
      current_user s (some a) = get_user_from_token s (pyReplace a "Bearer " "")) ∧
    (∀ t : String, hasOccur "Bearer ".data t.data = false →
      current_user s (some ("Bearer " ++ t)) = get_user_from_token s t) := by
  refine ⟨rfl, rfl, ?_, ?_⟩
  · intro a ha
    simp [current_user, ha]
  · intro t ht
    exact current_user_bearer s t ht

/-- Witness for the amended C6: with the demo token in the store, the
canonical header `"Bearer mocktoken_u_demo_1"` authenticates as the demo
user. -/
theorem current_user_spec_witness :
    hasOccur "Bearer ".data ("mocktoken_u_demo_1" : String).data = false ∧
    current_user (login initialStore ⟨"demo@giftflow.app", "demo123"⟩).2
      (some ("Bearer " ++ "mocktoken_u_demo_1")) = .ok demoUser := by
  have h := (current_user_spec (login initialStore ⟨"demo@giftflow.app", "demo123"⟩).2).2.2.2
    "mocktoken_u_demo_1" (by decide)
  refine ⟨by decide, ?_⟩
  rw [h]
  decide

/-- Claim C7: in every reachable store, each token table entry belongs to the
user it was minted for (`mocktoken_<userId>` mapped to that user's email) and
resolves to exactly that user's record; `/api/me` with the bearer header for
that token returns exactly that user's name, email and id.  Resolution fails
with 401 when the token is absent, and with 401 when the mapped email
resolves to no user. -/
theorem token_resolution (s : Store) (hs : Reachable s) :
    (∀ q ∈ s.tokens, ∃ r ∈ s.users,
      q.1 = "mocktoken_" ++ r.2.id ∧ q.2 = r.1 ∧
      get_user_from_token s q.1 = .ok r.2 ∧
      me_route s (some ("Bearer " ++ q.1)) = .ok ⟨r.2.name, r.2.email, r.2.id⟩) ∧
    (∀ r ∈ s.users, ∀ e : String,
      dictGet s.tokens ("mocktoken_" ++ r.2.id) = some e →
      get_user_from_token s ("mocktoken_" ++ r.2.id) = .ok r.2) ∧
    (∀ t : String, dictGet s.tokens t = none →
      get_user_from_token s t = .error ⟨401, "Invalid token"⟩) ∧
    (∀ (t e : String), dictGet s.tokens t = some e → e ≠ "" →
      dictGet s.users e = none →
      get_user_from_token s t = .error ⟨401, "User not found"⟩) := by
  have inv := reachable_inv hs
  have hres : ∀ r ∈ s.users, ∀ t : String, dictGet s.tokens t = some r.1 →
      get_user_from_token s t = .ok r.2 := by
    intro r hr t hget
    have hemail : r.1 ≠ "" := inv.emails_ne r hr
    have huser : dictGet s.users r.1 = some r.2 :=
      dictGet_of_mem_nodup inv.emails_nodup hr
    simp [get_user_from_token, hget, hemail, huser]
  constructor
  · intro q hq
    rcases inv.tok_shape q hq with ⟨r, hr, hq1, hq2⟩
    have hget : dictGet s.tokens q.1 = some r.1 := by
      rw [← hq2]
      exact dictGet_of_mem_nodup inv.tok_keys_nodup hq
    have hok := hres r hr q.1 hget
    refine ⟨r, hr, hq1, hq2, hok, ?_⟩
    have hbear : hasOccur "Bearer ".data q.1.data = false := by
      rw [hq1]
      exact token_no_bearer_of_inv inv hr
    show (current_user s (some ("Bearer " ++ q.1))).map me =
      .ok ⟨r.2.name, r.2.email, r.2.id⟩
    rw [current_user_bearer s q.1 hbear, hok]
    rfl
  refine ⟨?_, ?_, ?_⟩
  · intro r hr e hget
    have hq := dictGet_mem hget
    rcases inv.tok_shape _ hq with ⟨r', hr', hq1, hq2⟩
    have hid : r'.2.id = r.2.id := (string_append_cancel_left hq1).symm
    have hrr : r' = r := List.inj_on_of_nodup_map inv.ids_nodup hr' hr hid
    have he : e = r.1 := by
      rw [← hrr]
      exact hq2
    have hgete : dictGet s.tokens ("mocktoken_" ++ r.2.id) = some r.1 := by
      rw [hget, he]
    exact hres r hr _ hgete
  · intro t hget
    simp [get_user_from_token, hget]
  · intro t e hget hne hnouser
    simp [get_user_from_token, hget, hne, hnouser]

/-- Witness for C7: in the store reached by the demo login, the minted demo
token resolves to the demo user and `/api/me` returns the demo identity. -/
theorem token_resolution_witness :
    get_user_from_token (login initialStore ⟨"demo@giftflow.app", "demo123"⟩).2
      ("mocktoken_" ++ demoUser.id) = .ok demoUser ∧
    get_user_from_token (login initialStore ⟨"demo@giftflow.app", "demo123"⟩).2
      "absent_token" = .error ⟨401, "Invalid token"⟩ := by
  have h := token_resolution (login initialStore ⟨"demo@giftflow.app", "demo123"⟩).2
    (Reachable.next Reachable.init
      (Step.login_step initialStore ⟨"demo@giftflow.app", "demo123"⟩))
  refine ⟨h.2.1 ("demo@giftflow.app", demoUser) (by decide) "demo@giftflow.app"
    (by decide), h.2.2.1 "absent_token" (by decide)⟩

/-- Claim C8: every handler step preserves the store invariants — emails are
a unique key of the user table, user and event identifiers stay pairwise
distinct, an existing token keeps mapping to the same email, and the event
list only ever grows at the end (so an event's owner never changes after
creation). -/
theorem handlers_preserve_invariants (s s' : Store) (hs : Reachable s)
    (st : Step s s') :
    ((s'.users.map Prod.fst).Nodup) ∧
    ((s'.users.map (fun q => q.2.id)).Nodup) ∧
    ((s'.events.map Event.id).Nodup) ∧
    (∀ t e : String, dictGet s.tokens t = some e → dictGet s'.tokens t = some e) ∧
    (s'.events.take s.events.length = s.events) := by
  have inv := reachable_inv hs
  have inv' := inv_step inv st
  refine ⟨inv'.emails_nodup, inv'.ids_nodup, events_ids_nodup_of_inv inv',
    tok_stable_step inv st, ?_⟩
  cases st with
  | signup_step p hp =>
    rw [signup_events_eq]
    exact List.take_length _
  | login_step p =>
    rw [(login_events_users_eq s p).1]
    exact List.take_length _
  | create_step auth p =>
    cases hcu : current_user s auth with
    | error e =>
      rw [create_route_err_eq hcu]
      exact List.take_length _
    | ok u =>
      rw [create_route_ok_eq hcu]
      exact List.take_left _ _

/-- Witness for C8 at a concrete step: signing up a second user on the seeded
store leaves the seed events untouched and keeps all keys distinct. -/
theorem handlers_preserve_invariants_witness :
    ((signup initialStore ⟨"Bob", "bob@x.com", "pw2"⟩).2.users.map Prod.fst).Nodup ∧
    (signup initialStore ⟨"Bob", "bob@x.com", "pw2"⟩).2.events.take 1 =
      initialStore.events := by
  have h := handlers_preserve_invariants initialStore
    (signup initialStore ⟨"Bob", "bob@x.com", "pw2"⟩).2 Reachable.init
    (Step.signup_step initialStore ⟨"Bob", "bob@x.com", "pw2"⟩ (by decide))
  exact ⟨h.1, h.2.2.2.2⟩

/-- Claim C9: each handler is atomic — whenever it returns an error response,
the store it returns is exactly the store it was given. -/
theorem handlers_atomic (s : Store) (p : SignupRequest) (q : LoginRequest)
    (auth : Option String) (cp : EventCreate) :
    (∀ e : HTTPError, (signup s p).1 = .error e → (signup s p).2 = s) ∧
    (∀ e : HTTPError, (login s q).1 = .error e → (login s q).2 = s) ∧
    (∀ e : HTTPError, (create_event_route s auth cp).1 = .error e →
      (create_event_route s auth cp).2 = s) := by
  refine ⟨?_, ?_, ?_⟩
  · intro e he
    cases hu : dictGet s.users p.email with
    | some u => rw [signup_conflict_eq hu]
    | none =>
      rw [signup_ok_eq hu] at he
      exact absurd he (by simp)
  · intro e he
    cases hu : dictGet s.users q.email with
    | none => rw [login_nouser_eq hu]
    | some user =>
      by_cases hpw : user.password = q.password
      · exact absurd he (by simp [login, hu, hpw])
      · rw [login_badpw_eq hu hpw]
  · intro e he
    cases hcu : current_user s auth with
    | error err => rw [create_route_err_eq hcu]
    | ok u =>
      rw [create_route_ok_eq hcu] at he
      exact absurd he (by simp)

/-- Witness for C9: the duplicate-email signup and the unauthenticated event
creation both fail and return the seeded store unchanged. -/
theorem handlers_atomic_witness :
    (signup initialStore ⟨"Demo2", "demo@giftflow.app", "x"⟩).2 = initialStore ∧
    (create_event_route initialStore none { name := "E", date := "d" }).2 =
      initialStore := by
  have h := handlers_atomic initialStore ⟨"Demo2", "demo@giftflow.app", "x"⟩
    ⟨"demo@giftflow.app", "demo123"⟩ none { name := "E", date := "d" }
  exact ⟨h.1 ⟨400, "Email already in use"⟩ (by decide),
    h.2.2 ⟨401, "Missing Authorization header"⟩ rfl⟩

/-- Claim C10: no serialized handler response carries a `password` field —
the auth responses expose only token/name/email/userId, `/api/me` only
name/email/userId, and a dumped `Event` record has no password key. -/
theorem responses_hide_password :
    ∀ (r : AuthResponse) (m : MeResponse) (e : Event),
      ("password" ∉ (r.dumpFields.map Prod.fst)) ∧
      ("password" ∉ (m.dumpFields.map Prod.fst)) ∧
      ("password" ∉ e.dumpKeys) := by
  intro r m e
  refine ⟨?_, ?_, ?_⟩
  · show "password" ∉ (["token", "name", "email", "userId"] : List String)
    decide
  · show "password" ∉ (["name", "email", "userId"] : List String)
    decide
  · show "password" ∉ (["id", "name", "date", "budget", "participants", "ownerId",
      "status", "event_type", "allow_wishlists", "collect_addresses",
      "custom_message"] : List String)
    decide

end GiftFlow
